import Mathlib

/-!
Verification of the URL-shortener storage engine of dkolesni-prog/transformer.

The development shallowly embeds the three store variants of the repository:

* the in-memory store (`internal/store/memory.go`, `MemoryStorage`),
* the relational store (`internal/store/dbStorage.go`, `RDB`), and
* the file-journal store (the `Storage` type keyed by `short_url`).

Go maps are modelled as association lists whose assignment updates an
existing key in place and appends fresh keys, so `List.length` agrees with
Go's `len`.  The entropy source behind `helpers.RandStringRunes` is modelled
as an oracle: a list of pre-drawn candidate codes consumed one per attempt;
an exhausted oracle models an entropy-source failure (the only way
`RandStringRunes` can fail).  URLs are carried as the strings produced by
`URL.String()`.
-/

namespace Shortener

/-- Go map with string keys, as an association list.  `assign` mirrors a Go
map assignment `m[k] = v`: it overwrites in place when `k` is present and
appends otherwise, so the list length matches Go's `len(m)`. -/
abbrev GoMap (β : Type) := List (String × β)

namespace GoMap

def lookup {β : Type} : GoMap β → String → Option β
  | [], _ => none
  | (k', v) :: rest, k => if k' = k then some v else lookup rest k

def hasKey {β : Type} (m : GoMap β) (k : String) : Bool :=
  (m.lookup k).isSome

def assign {β : Type} : GoMap β → String → β → GoMap β
  | [], k, v => [(k, v)]
  | (k', v') :: rest, k, v =>
      if k' = k then (k, v) :: rest else (k', v') :: assign rest k v

/-- The keys of the map are pairwise distinct.  This holds for every state a
Go map can reach, and `assign` preserves it. -/
def keysNodup {β : Type} (m : GoMap β) : Prop := (m.map Prod.fst).Nodup

end GoMap

/-- `ensureSlash` from `internal/store/dbStorage.go` (the same normalization
is applied by every variant before concatenating the code). -/
def ensureSlash (baseURL : String) : String :=
  if baseURL.endsWith ("/") then baseURL else baseURL ++ "/"

/-- Modelled contract of Go's `net/url.Parse` as the store relies on it:
parsing fails exactly on strings containing an ASCII control character, and
on success the parsed value renders back to the input string.  The store
only ever parses strings that were produced by `URL.String()`, for which
this contract holds. -/
def goURLParse (s : String) : Option String :=
  if s.toList.any (fun c => c.toNat < 32 || c.toNat == 127) then none else some s

/-- Lowercase hex digit, as printed by Go's `fmt` verb `%x`. -/
def hexDigitChar (n : Nat) : Char :=
  if n < 10 then Char.ofNat (48 + n) else Char.ofNat (87 + n)

/-- The digits of `n` in base 16 (most significant first, no leading
zeroes, `0` printed as a single digit), as produced by
`fmt.Sprintf("%x", n)`. -/
def hexChars (n : Nat) : List Char :=
  if n < 16 then [hexDigitChar n]
  else hexChars (n / 16) ++ [hexDigitChar (n % 16)]
termination_by n
decreasing_by
  exact Nat.div_lt_self (by omega) (by omega)

/-- `fmt.Sprintf("%x", n)` for a natural `n`: the synthetic key generator
of `MemoryStorage.SaveBatch`. -/
def hexStr (n : Nat) : String := String.mk (hexChars n)

/-- Numeric value of a lowercase hex digit (left inverse of
`hexDigitChar`). -/
def hexDigitVal (c : Char) : Nat :=
  if c.toNat ≤ 57 then c.toNat - 48 else c.toNat - 87

/-- Numeric value of a big-endian hex digit string. -/
def hexVal (l : List Char) : Nat :=
  l.foldl (fun a c => 16 * a + hexDigitVal c) 0

/-- `MemoryRecord` from `internal/store/memory.go`. -/
structure MemoryRecord where
  originalURL : String
  userID : String
  isDeleted : Bool
deriving DecidableEq, Repr

/-- The in-memory store state: the `data` map of `MemoryStorage`. -/
abbrev MemState := GoMap MemoryRecord

/-- Error outcomes of `Save` (the two `error` returns of the Go loop). -/
inductive SaveErr where
  /-- `RandStringRunes` failed (entropy-source failure). -/
  | genFailure
  /-- All retry attempts collided: could not generate unique short ID. -/
  | exhausted
deriving DecidableEq, Repr

/-- `UserURL` from `internal/store/store.go`. -/
structure UserURL where
  shortURL : String
  originalURL : String
deriving DecidableEq, Repr

/-- Error outcomes of `LoadFull` / `Load`. -/
inductive LoadErr where
  | notFound
  | invalidStored
deriving DecidableEq, Repr

namespace MemoryStorage

/-- The retry loop of `MemoryStorage.Save`: one oracle code is drawn per
attempt; a code already present in the map is a collision and the loop
moves on to a freshly drawn code; an absent code is inserted and the loop
returns the fully-qualified short URL. -/
def saveLoop (userID urlStr baseURL : String) :
    Nat → List String → MemState → Except SaveErr String × MemState
  | 0, _, s => (Except.error SaveErr.exhausted, s)
  | _ + 1, [], s => (Except.error SaveErr.genFailure, s)
  | n + 1, c :: cs, s =>
      if s.hasKey c then
        saveLoop userID urlStr baseURL n cs s
      else
        (Except.ok (ensureSlash baseURL ++ c),
         s.assign c ⟨urlStr, userID, false⟩)

/-- `MemoryStorage.Save` (`internal/store/memory.go`): `maxRetries = 5`. -/
def save (entropy : List String) (userID urlStr baseURL : String)
    (s : MemState) : Except SaveErr String × MemState :=
  saveLoop userID urlStr baseURL 5 entropy s

/-- `MemoryStorage.SaveBatch` (`internal/store/memory.go`): each URL gets the
synthetic key `fmt.Sprintf("%x", len(m.data))` and is assigned into the map
unconditionally; the call never fails. -/
def saveBatch (userID : String) (urls : List String) (baseURL : String)
    (s : MemState) : List String × MemState :=
  match urls with
  | [] => ([], s)
  | u :: rest =>
      let key := hexStr s.length
      let s1 := GoMap.assign s key ⟨u, userID, false⟩
      let out := saveBatch userID rest baseURL s1
      ((ensureSlash baseURL ++ key) :: out.1, out.2)

/-- `MemoryStorage.LoadFull`: resolves a code to the stored URL together
with the tombstone flag; an absent code is `notFound` (distinct from a
present-but-deleted record, which succeeds with `isDeleted = true`). -/
def loadFull (s : MemState) (shortID : String) :
    Except LoadErr (String × Bool) :=
  match s.lookup shortID with
  | none => Except.error LoadErr.notFound
  | some r =>
      match goURLParse r.originalURL with
      | none => Except.error LoadErr.invalidStored
      | some u => Except.ok (u, r.isDeleted)

/-- `MemoryStorage.LoadUserURLs`: lists the non-deleted records owned by
`userID`.  Go iterates the map in unspecified order; the model uses
insertion order, one admissible linearization. -/
def loadUserURLs (s : MemState) (userID baseURL : String) : List UserURL :=
  s.filterMap fun p =>
    if p.2.userID = userID && !p.2.isDeleted then
      some ⟨ensureSlash baseURL ++ p.1, p.2.originalURL⟩
    else none

/-- `MemoryStorage.DeleteBatch`: marks each listed code deleted, but only
when the record is owned by `userID`; absent or foreign codes are skipped. -/
def deleteBatch (userID : String) (shortIDs : List String) (s : MemState) :
    MemState :=
  match shortIDs with
  | [] => s
  | sid :: rest =>
      let s1 :=
        match s.lookup sid with
        | none => s
        | some r =>
            if r.userID = userID then s.assign sid { r with isDeleted := true }
            else s
      deleteBatch userID rest s1

end MemoryStorage

/-- One invocation of the in-memory store contract (`LoadFull` and
`LoadUserURLs` never touch the map, but are included so that operation
sequences range over the whole contract). -/
inductive StoreOp where
  | save (entropy : List String) (uid urlStr base : String)
  | saveBatch (uid : String) (urls : List String) (base : String)
  | deleteBatch (uid : String) (ids : List String)
  | loadFull (shortID : String)
  | loadUserURLs (uid base : String)

/-- Effect of one operation on the `data` map. -/
def StoreOp.apply : StoreOp → MemState → MemState
  | StoreOp.save e uid u b, s => (MemoryStorage.save e uid u b s).2
  | StoreOp.saveBatch uid us b, s => (MemoryStorage.saveBatch uid us b s).2
  | StoreOp.deleteBatch uid ids, s => MemoryStorage.deleteBatch uid ids s
  | StoreOp.loadFull _, s => s
  | StoreOp.loadUserURLs _ _, s => s

def StoreOp.isBatch : StoreOp → Bool
  | StoreOp.saveBatch _ _ _ => true
  | _ => false

def runOps (ops : List StoreOp) (s : MemState) : MemState :=
  ops.foldl (fun st op => op.apply st) s

/-- `r'` is `r` with the deletion flag possibly raised: the only change a
`Save`/`DeleteBatch`/load sequence can make to an existing record. -/
def tombstoneLe (r r' : MemoryRecord) : Prop :=
  r'.originalURL = r.originalURL ∧ r'.userID = r.userID ∧
    (r.isDeleted = true → r'.isDeleted = true)

/-- `16 ^ 7 = 2 ^ 28 = 268435456`: the first map size whose
`fmt.Sprintf("%x", len)` rendering is eight characters long and can
therefore collide with an eight-character code allocated by `Save`. -/
def bigN : Nat := 16 ^ 7

/-- The store during the pathological batch: the record `r0` saved under
code `"10000000"` (the `%x` rendering of `bigN`), followed by the `j`
records the batch has inserted so far under the synthetic keys
`hexStr 1 … hexStr j`. -/
def padState (r0 : MemoryRecord) (uid u2 : String) (j : Nat) : MemState :=
  ("10000000", r0) ::
    (List.range j).map (fun i => (hexStr (1 + i), ⟨u2, uid, false⟩))

/-- Record stored by the first `Save` of the overwrite scenario. -/
def recA : MemoryRecord := ⟨"https://a.example", "u1", false⟩

/-- Fresh store after `Save("u1", "https://a.example", "http://x/")` where
the entropy source drew the code `"10000000"` (a legal eight-character
alphanumeric draw). -/
def storeA : MemState :=
  (MemoryStorage.save ["10000000"] ("u1") ("https://a.example") ("http://x/")
    []).2

/-- `storeA` after its owner tombstones the code via `DeleteBatch`. -/
def storeADel : MemState :=
  MemoryStorage.deleteBatch ("u1") ["10000000"] storeA

/-- A `SaveBatch` of `bigN` URLs: its last synthetic key is
`hexStr bigN = "10000000"`, which overwrites the record of that code. -/
def bigBatch (s : MemState) : List String × MemState :=
  MemoryStorage.saveBatch ("u2") (List.replicate bigN ("https://b.example"))
    ("http://x/") s

/-- A row of the `short_urls` table (`internal/store/dbStorage.go`); the
timestamp columns, which no claim concerns, are not modelled. -/
structure Row where
  shortID : String
  originalURL : String
  userID : String
  isDeleted : Bool
deriving DecidableEq, Repr

abbrev Table := List Row

/-- Outcome of one `INSERT ... ON CONFLICT (original_url) DO NOTHING
RETURNING short_id` statement, as observed through `Scan`. -/
inductive InsertResult where
  | inserted (code : String)
  | noRows
  | uniqueViolation
deriving DecidableEq, Repr

/-- Modelled contract of the INSERT statement issued by `RDB.Save` and
`RDB.SaveBatch`: when a row with the same `original_url` exists, the
arbiter constraint fires, nothing is inserted and no row is returned
(`pgx.ErrNoRows` on `Scan`); otherwise a clash on the unique `short_id`
column raises a unique-violation error; otherwise the row is inserted with
`is_deleted` defaulting to false and its `short_id` is returned. -/
def insertOnConflict (t : Table) (code urlStr uid : String) :
    InsertResult × Table :=
  if t.any (fun row => row.originalURL == urlStr) then
    (InsertResult.noRows, t)
  else if t.any (fun row => row.shortID == code) then
    (InsertResult.uniqueViolation, t)
  else
    (InsertResult.inserted code, t ++ [⟨code, urlStr, uid, false⟩])

/-- `SELECT short_id FROM short_urls WHERE original_url = $1`. -/
def selectCodeByURL (t : Table) (urlStr : String) : Option String :=
  (t.find? (fun row => row.originalURL == urlStr)).map (fun row => row.shortID)

/-- Outcome of `RDB.Save`; the conflict case carries the existing short URL
together with the non-nil `conflict: URL already exists` error. -/
inductive RdbSaveOutcome where
  | ok (shortURL : String)
  | conflict (shortURL : String)
  | genFailure
  | exhausted
deriving DecidableEq, Repr

namespace RDB

/-- The retry loop of `RDB.Save`: on a successful insert the short URL is
returned; on `ErrNoRows` (URL conflict) the follow-up SELECT fetches the
existing code, which is returned together with the conflict error; any
other statement error (a `short_id` collision) falls through to the next
attempt with a freshly drawn code. -/
def saveLoop (uid urlStr base : String) :
    Nat → List String → Table → RdbSaveOutcome × Table
  | 0, _, t => (RdbSaveOutcome.exhausted, t)
  | _ + 1, [], t => (RdbSaveOutcome.genFailure, t)
  | n + 1, c :: cs, t =>
      match insertOnConflict t c urlStr uid with
      | (InsertResult.inserted code, t') =>
          (RdbSaveOutcome.ok (ensureSlash base ++ code), t')
      | (InsertResult.noRows, t') =>
          match selectCodeByURL t' urlStr with
          | some existing =>
              (RdbSaveOutcome.conflict (ensureSlash base ++ existing), t')
          | none => saveLoop uid urlStr base n cs t'
      | (InsertResult.uniqueViolation, t') => saveLoop uid urlStr base n cs t'

/-- `RDB.Save` (`internal/store/dbStorage.go`): `maxRetries = 5`. -/
def save (entropy : List String) (uid urlStr base : String) (t : Table) :
    RdbSaveOutcome × Table :=
  saveLoop uid urlStr base 5 entropy t

/-- One queued statement of the `pgx.Batch` built by `RDB.SaveBatch`. -/
structure InsertStmt where
  code : String
  urlStr : String
  uid : String
deriving DecidableEq, Repr

/-- The queueing phase of `RDB.SaveBatch`: one code is drawn per URL (the
inner retry loop breaks unconditionally after its first iteration) and the
INSERT is queued; an entropy failure aborts before anything is sent. -/
def queueStmts (entropy : List String) (uid : String) (urls : List String) :
    Option (List InsertStmt) :=
  match urls, entropy with
  | [], _ => some []
  | _ :: _, [] => none
  | u :: rest, c :: cs =>
      (queueStmts cs uid rest).map (fun l => ⟨c, u, uid⟩ :: l)

/-- Per-statement result of the pipelined batch as read back by `Scan`. -/
inductive StmtResult where
  | inserted (code : String)
  | noRows
deriving DecidableEq, Repr

/-- Modelled from the spec: pgx's `SendBatch` pipelines the queued
statements and PostgreSQL executes them inside one implicit transaction
(spec section 4.5: a single transaction or a pipelined batch of statements
so that either all rows commit or none do).  The pgx driver and the
database engine are external to the sources, so their batch semantics are
taken from the spec: a fatal statement error — here a `short_id` unique
violation — aborts the pipeline and rolls back every statement of the
batch, reported as `none`. -/
def runPipeline : List InsertStmt → Table → Option (List StmtResult × Table)
  | [], t => some ([], t)
  | stmt :: rest, t =>
      match insertOnConflict t stmt.code stmt.urlStr stmt.uid with
      | (InsertResult.inserted code, t') =>
          (runPipeline rest t').map
            (fun p => (StmtResult.inserted code :: p.1, p.2))
      | (InsertResult.noRows, t') =>
          (runPipeline rest t').map (fun p => (StmtResult.noRows :: p.1, p.2))
      | (InsertResult.uniqueViolation, _) => none

/-- The result-reading loop of `RDB.SaveBatch`: an inserted row contributes
its fresh code; a no-rows result triggers the follow-up
`SELECT short_id ... WHERE original_url = $1` on a separate pool
connection, which sees the table as it was before the not-yet-committed
batch; a failed follow-up SELECT aborts with an error. -/
def readResults (t0 : Table) (base : String) :
    List String → List StmtResult → Option (List String)
  | [], [] => some []
  | u :: urls, r :: rs =>
      match r with
      | StmtResult.inserted code =>
          (readResults t0 base urls rs).map
            (fun l => (ensureSlash base ++ code) :: l)
      | StmtResult.noRows =>
          match selectCodeByURL t0 u with
          | some code =>
              (readResults t0 base urls rs).map
                (fun l => (ensureSlash base ++ code) :: l)
          | none => none
  | _, _ => none

/-- Outcome of `RDB.SaveBatch`. -/
inductive BatchOutcome where
  | ok (shortURLs : List String)
  | genFailure
  | execError
  | selectError
deriving DecidableEq, Repr

/-- `RDB.SaveBatch` (`internal/store/dbStorage.go`): queue one INSERT per
URL, send the batch through the pipeline, then read the per-statement
results, resolving URL conflicts inline via the follow-up SELECT. -/
def saveBatch (entropy : List String) (uid : String) (urls : List String)
    (base : String) (t : Table) : BatchOutcome × Table :=
  match queueStmts entropy uid urls with
  | none => (BatchOutcome.genFailure, t)
  | some stmts =>
      match runPipeline stmts t with
      | none => (BatchOutcome.execError, t)
      | some (results, t') =>
          match readResults t base urls results with
          | none => (BatchOutcome.selectError, t')
          | some out => (BatchOutcome.ok out, t')

/-- `RDB.DeleteBatch`: the single
`UPDATE short_urls SET is_deleted = true WHERE user_id = $1 AND
short_id = ANY($2)` statement. -/
def deleteBatch (uid : String) (shortIDs : List String) (t : Table) : Table :=
  t.map fun row =>
    if row.userID == uid && shortIDs.any (fun sid => sid == row.shortID) then
      { row with isDeleted := true }
    else row

end RDB

/-- `Record` of the file-journal store: `{uuid, short_url, original_url,
user_id}`.  The struct has no deletion flag. -/
structure FileRecord where
  uuid : String
  shortURL : String
  originalURL : String
  userID : String
deriving DecidableEq, Repr

/-- A JSON value as far as decoding into `FileRecord` distinguishes them. -/
inductive JsonVal where
  | str (s : String)
  | boolean (b : Bool)
  | other
deriving DecidableEq, Repr

/-- One line of the journal file: either a JSON object (its fields in
source order) or a line that is not a JSON object at all. -/
inductive JournalLine where
  | obj (fields : List (String × JsonVal))
  | malformed
deriving DecidableEq, Repr

/-- Modelled contract of `encoding/json.Unmarshal` into a flat struct of
string fields: for each tagged field the last occurrence in the object
wins, an absent field keeps the zero value, a present field of a non-string
type is an unmarshalling error, and unknown object keys are ignored. -/
def jsonStringField (fields : List (String × JsonVal)) (key : String) :
    Option String :=
  match fields.reverse.find? (fun p => p.1 == key) with
  | none => some ""
  | some (_, JsonVal.str s) => some s
  | some _ => none

/-- Decoding of one journal object into a `FileRecord`. -/
def decodeRecord (fields : List (String × JsonVal)) : Option FileRecord :=
  match jsonStringField fields ("uuid"), jsonStringField fields ("short_url"),
      jsonStringField fields ("original_url"),
      jsonStringField fields ("user_id") with
  | some a, some s, some o, some w => some ⟨a, s, o, w⟩
  | _, _, _, _ => none

/-- Decoding of one journal line (`json.Unmarshal` of the line). -/
def decodeLine : JournalLine → Option FileRecord
  | JournalLine.obj fields => decodeRecord fields
  | JournalLine.malformed => none

/-- One iteration of the `Storage.loadFromFile` scan: a line that fails to
unmarshal is logged and skipped; a decoded record is replayed into the map
keyed by its `short_url`. -/
def replayLine (m : GoMap FileRecord) (line : JournalLine) :
    GoMap FileRecord :=
  match decodeLine line with
  | none => m
  | some r => m.assign r.shortURL r

/-- `Storage.loadFromFile`: scan the journal sequentially and replay every
line into the initially empty map. -/
def loadFromFile (lines : List JournalLine) : GoMap FileRecord :=
  lines.foldl replayLine []

/-- `Storage.Load` of the file-journal store: resolve a code via the
in-memory map and parse the stored URL.  The file variant's record has no
tombstone flag, so the result carries none. -/
def fileLoad (m : GoMap FileRecord) (shortID : String) :
    Except LoadErr String :=
  match m.lookup shortID with
  | none => Except.error LoadErr.notFound
  | some r =>
      match goURLParse r.originalURL with
      | none => Except.error LoadErr.invalidStored
      | some u => Except.ok u

/-- The record of the most recent line of the journal that decodes to a
record carrying the given code: the binding that last-write-wins recovery
must produce. -/
def lastRecordFor (lines : List JournalLine) (code : String) :
    Option FileRecord :=
  ((lines.filterMap decodeLine).reverse).find? (fun r => r.shortURL == code)

/-- JSON encoding of a record, as appended by `Storage.saveRecord`. -/
def encodeRecord (r : FileRecord) : JournalLine :=
  JournalLine.obj
    [("uuid", JsonVal.str r.uuid), ("short_url", JsonVal.str r.shortURL),
     ("original_url", JsonVal.str r.originalURL),
     ("user_id", JsonVal.str r.userID)]

/-- The file-journal store state: the in-memory map and the journal. -/
structure FileState where
  table : GoMap FileRecord
  journal : List JournalLine
deriving DecidableEq, Repr

/-- `Storage.SaveBatch` of the file-journal store: each URL gets the
synthetic decimal key `strconv.Itoa(len(map))`, and the record is assigned
into the map and appended to the journal.  The disk-append success path is
modelled; an I/O failure aborts the batch with an error and no claim
concerns it. -/
def fileSaveBatch (uid : String) (urls : List String) (base : String)
    (st : FileState) : List String × FileState :=
  match urls with
  | [] => ([], st)
  | u :: rest =>
      let key := toString st.table.length
      let r : FileRecord := ⟨"", key, u, uid⟩
      let st1 : FileState :=
        ⟨st.table.assign key r, st.journal ++ [encodeRecord r]⟩
      let out := fileSaveBatch uid rest base st1
      ((ensureSlash base ++ key) :: out.1, out.2)

/-! ### Association-list facts about the Go map model -/

namespace GoMap

theorem lookup_assign_self {β : Type} (m : GoMap β) (k : String) (v : β) :
    (m.assign k v).lookup k = some v := by
  induction m with
  | nil => simp [assign, lookup]
  | cons p rest ih =>
      by_cases h : p.1 = k
      · simp [assign, lookup, h]
      · simpa [assign, lookup, h] using ih

theorem lookup_assign_ne {β : Type} (m : GoMap β) (k k' : String) (v : β)
    (h : k' ≠ k) : (m.assign k v).lookup k' = m.lookup k' := by
  induction m with
  | nil =>
      have hk' : ¬k = k' := fun hk => h hk.symm
      simp [assign, lookup, hk']
  | cons p rest ih =>
      by_cases hp : p.1 = k
      · have hk' : ¬k = k' := fun hk => h hk.symm
        have hp' : ¬p.1 = k' := by rw [hp]; exact hk'
        simp [assign, hp, lookup, hk', hp']
      · simp [assign, hp, lookup, ih]

theorem lookup_eq_none_iff {β : Type} (m : GoMap β) (k : String) :
    m.lookup k = none ↔ ∀ p ∈ m, p.1 ≠ k := by
  induction m with
  | nil => simp [lookup]
  | cons p rest ih =>
      by_cases hp : p.1 = k <;> simp [lookup, hp, ih]

theorem assign_of_lookup_none {β : Type} (m : GoMap β) (k : String) (v : β)
    (h : m.lookup k = none) : m.assign k v = m ++ [(k, v)] := by
  induction m with
  | nil => simp [assign]
  | cons p rest ih =>
      rw [lookup] at h
      by_cases hp : p.1 = k
      · simp [hp] at h
      · simp only [hp, if_false] at h
        simp [assign, hp, ih h]

theorem assign_of_lookup_some_self {β : Type} (m : GoMap β) (k : String)
    (v : β) (h : m.lookup k = some v) : m.assign k v = m := by
  induction m with
  | nil => simp [lookup] at h
  | cons p rest ih =>
      rw [lookup] at h
      by_cases hp : p.1 = k
      · simp only [hp, if_true, Option.some.injEq] at h
        cases p
        simp_all [assign]
      · simp only [hp, if_false] at h
        simp [assign, hp, ih h]

theorem keys_assign_of_lookup_some {β : Type} (m : GoMap β) (k : String)
    (v w : β) (h : m.lookup k = some w) :
    (m.assign k v).map Prod.fst = m.map Prod.fst := by
  induction m with
  | nil => simp [lookup] at h
  | cons p rest ih =>
      rw [lookup] at h
      by_cases hp : p.1 = k
      · simp [assign, hp]
      · simp only [hp, if_false] at h
        simp [assign, hp, ih h]

theorem keysNodup_nil {β : Type} : keysNodup ([] : GoMap β) := by
  simp [keysNodup]

theorem keysNodup_assign {β : Type} (m : GoMap β) (k : String) (v : β)
    (h : keysNodup m) : keysNodup (m.assign k v) := by
  rcases hk : m.lookup k with _ | v₀
  · rw [assign_of_lookup_none m k v hk]
    unfold keysNodup at h ⊢
    rw [List.map_append, List.nodup_append]
    refine ⟨h, by simp, ?_⟩
    intro a ha hb
    simp only [List.map_cons, List.map_nil, List.mem_singleton] at hb
    subst hb
    rcases List.mem_map.mp ha with ⟨p, hp, rfl⟩
    exact (lookup_eq_none_iff m p.1).mp hk p hp rfl
  · unfold keysNodup at h ⊢
    rw [keys_assign_of_lookup_some m k v v₀ hk]
    exact h

theorem lookup_eq_some_of_mem {β : Type} (m : GoMap β) (k : String) (v : β)
    (hnd : keysNodup m) (hmem : (k, v) ∈ m) : m.lookup k = some v := by
  induction m with
  | nil => simp at hmem
  | cons p rest ih =>
      unfold keysNodup at hnd
      simp only [List.map_cons, List.nodup_cons] at hnd
      rcases List.mem_cons.mp hmem with h | h
      · subst h
        simp [lookup]
      · rw [lookup]
        by_cases hp : p.1 = k
        · exfalso
          exact hnd.1 (List.mem_map.mpr ⟨(k, v), h, hp.symm⟩)
        · simp only [hp, if_false]
          exact ih hnd.2 h

theorem mem_of_lookup_eq_some {β : Type} (m : GoMap β) (k : String) (v : β)
    (h : m.lookup k = some v) : (k, v) ∈ m := by
  induction m with
  | nil => simp [lookup] at h
  | cons p rest ih =>
      rw [lookup] at h
      by_cases hp : p.1 = k
      · simp only [hp, if_true, Option.some.injEq] at h
        subst h
        rw [← hp]
        exact List.mem_cons_self _ _
      · simp only [hp, if_false] at h
        exact List.mem_cons_of_mem _ (ih h)

end GoMap

/-! ### The hex rendering used by the synthetic batch keys -/

theorem hexChars_of_lt (n : Nat) (h : n < 16) :
    hexChars n = [hexDigitChar n] := by
  rw [hexChars]
  simp [h]

theorem hexChars_of_ge (n : Nat) (h : 16 ≤ n) :
    hexChars n = hexChars (n / 16) ++ [hexDigitChar (n % 16)] := by
  rw [hexChars]
  simp [Nat.not_lt.mpr h]

theorem hexDigitVal_hexDigitChar : ∀ d < 16, hexDigitVal (hexDigitChar d) = d := by
  decide

theorem hexVal_append (l : List Char) (c : Char) :
    hexVal (l ++ [c]) = 16 * hexVal l + hexDigitVal c := by
  simp [hexVal, List.foldl_append]

theorem hexVal_hexChars (n : Nat) : hexVal (hexChars n) = n := by
  induction n using Nat.strong_induction_on with
  | _ n ih =>
      by_cases h : n < 16
      · rw [hexChars_of_lt n h]
        simp only [hexVal, List.foldl_cons, List.foldl_nil, Nat.mul_zero,
          Nat.zero_add]
        exact hexDigitVal_hexDigitChar n h
      · have h16 : 16 ≤ n := Nat.le_of_not_lt h
        rw [hexChars_of_ge n h16, hexVal_append,
          ih (n / 16) (Nat.div_lt_self (by omega) (by omega)),
          hexDigitVal_hexDigitChar (n % 16) (Nat.mod_lt n (by omega))]
        omega

theorem hexChars_injective (a b : Nat) (h : hexChars a = hexChars b) :
    a = b := by
  have ha := hexVal_hexChars a
  rw [h, hexVal_hexChars b] at ha
  exact ha.symm

theorem hexStr_injective (a b : Nat) (h : hexStr a = hexStr b) : a = b := by
  unfold hexStr at h
  exact hexChars_injective a b (congrArg String.data h)

theorem hexChars_pow16 (k : Nat) :
    hexChars (16 ^ k) = hexDigitChar 1 :: List.replicate k (hexDigitChar 0) := by
  induction k with
  | zero =>
      have h1 : (16 : Nat) ^ 0 = 1 := by norm_num
      rw [h1, hexChars_of_lt 1 (by omega)]
      simp
  | succ k ih =>
      have h16 : 16 ≤ 16 ^ (k + 1) := by
        have := Nat.pow_le_pow_right (show 0 < 16 by omega) (show 1 ≤ k + 1 by omega)
        simpa using this
      have hdiv : 16 ^ (k + 1) / 16 = 16 ^ k := by
        rw [pow_succ]
        omega
      have hmod : 16 ^ (k + 1) % 16 = 0 := by
        rw [pow_succ]
        omega
      rw [hexChars_of_ge _ h16, hdiv, hmod, ih]
      simp [List.replicate_succ']

theorem hexStr_bigN : hexStr bigN = "10000000" := by
  have h : bigN = 16 ^ 7 := rfl
  rw [hexStr, h, hexChars_pow16]
  decide

/-! ### The `SaveBatch` run that recycles an existing code

`MemoryStorage.SaveBatch` keys each insertion by `fmt.Sprintf("%x", len)`.
Once the map holds `bigN` records, that key is the eight-character string
`"10000000"`, which `Save`'s random generator can have allocated earlier:
the assignment then overwrites the existing record. -/

theorem length_padState (r0 : MemoryRecord) (uid u2 : String) (j : Nat) :
    (padState r0 uid u2 j).length = 1 + j := by
  simp [padState]
  omega

theorem lookup_padState_fresh (r0 : MemoryRecord) (uid u2 : String) (j : Nat)
    (h : 1 + j < bigN) :
    GoMap.lookup (padState r0 uid u2 j) (hexStr (1 + j)) = none := by
  rw [GoMap.lookup_eq_none_iff]
  intro p hp
  simp only [padState, List.mem_cons, List.mem_map, List.mem_range] at hp
  rcases hp with hp | ⟨i, hi, rfl⟩
  · subst hp
    intro hk
    simp only at hk
    rw [show ("10000000" : String) = hexStr bigN from hexStr_bigN.symm] at hk
    have := hexStr_injective bigN (1 + j) hk
    omega
  · intro hk
    simp only at hk
    have := hexStr_injective (1 + i) (1 + j) hk
    omega

theorem saveBatch_snd_cons (uid u base : String) (urls : List String)
    (s : MemState) :
    (MemoryStorage.saveBatch uid (u :: urls) base s).2 =
      (MemoryStorage.saveBatch uid urls base
        (GoMap.assign s (hexStr s.length) ⟨u, uid, false⟩)).2 := rfl

theorem assign_padState_fresh (r0 : MemoryRecord) (uid u2 : String) (j : Nat)
    (h : 1 + j < bigN) :
    GoMap.assign (padState r0 uid u2 j) (hexStr (1 + j)) ⟨u2, uid, false⟩ =
      padState r0 uid u2 (j + 1) := by
  rw [GoMap.assign_of_lookup_none _ _ _ (lookup_padState_fresh r0 uid u2 j h)]
  simp [padState, List.range_succ]

theorem saveBatch_padState (r0 : MemoryRecord) (uid u2 base : String) :
    ∀ n j, j + n = bigN → 1 ≤ n →
      (MemoryStorage.saveBatch uid (List.replicate n u2) base
          (padState r0 uid u2 j)).2 =
        ("10000000", (⟨u2, uid, false⟩ : MemoryRecord)) ::
          (List.range (bigN - 1)).map
            (fun i => (hexStr (1 + i), (⟨u2, uid, false⟩ : MemoryRecord))) := by
  intro n
  induction n with
  | zero =>
      intro j hj hn
      exact absurd hn (by omega)
  | succ n ih =>
      intro j hj hn
      rw [List.replicate_succ, saveBatch_snd_cons, length_padState]
      by_cases h0 : n = 0
      · subst h0
        have hjval : 1 + j = bigN := by omega
        rw [hjval, hexStr_bigN]
        have hassign :
            GoMap.assign (padState r0 uid u2 j) ("10000000")
                ⟨u2, uid, false⟩ =
              ("10000000", (⟨u2, uid, false⟩ : MemoryRecord)) ::
                (List.range j).map
                  (fun i => (hexStr (1 + i), (⟨u2, uid, false⟩ : MemoryRecord))) := by
          simp [padState, GoMap.assign]
        rw [hassign]
        have hj' : j = bigN - 1 := by omega
        rw [hj']
        rfl
      · have hlt : 1 + j < bigN := by omega
        rw [assign_padState_fresh r0 uid u2 j hlt]
        exact ih (j + 1) (by omega) (by omega)

/-! ### What non-batch operations can do to an existing binding -/

theorem tombstoneLe_refl (r : MemoryRecord) : tombstoneLe r r :=
  ⟨rfl, rfl, fun h => h⟩

theorem tombstoneLe_trans (a b c : MemoryRecord) (h1 : tombstoneLe a b)
    (h2 : tombstoneLe b c) : tombstoneLe a c :=
  ⟨h2.1.trans h1.1, h2.2.1.trans h1.2.1, fun h => h2.2.2 (h1.2.2 h)⟩

theorem tombstoneLe_raise (r : MemoryRecord) :
    tombstoneLe r { r with isDeleted := true } :=
  ⟨rfl, rfl, fun _ => rfl⟩

theorem saveLoop_preserves (uid u b : String) :
    ∀ (fuel : Nat) (entropy : List String) (s : MemState) (c : String)
      (r : MemoryRecord), s.lookup c = some r →
      ((MemoryStorage.saveLoop uid u b fuel entropy s).2).lookup c = some r := by
  intro fuel
  induction fuel with
  | zero =>
      intro entropy s c r h
      exact h
  | succ fuel ih =>
      intro entropy s c r h
      cases entropy with
      | nil => exact h
      | cons e es =>
          rw [MemoryStorage.saveLoop]
          rcases hk : s.hasKey e with _ | _
          · simp only [hk, Bool.false_eq_true, if_false]
            have hec : c ≠ e := by
              intro hce
              subst hce
              unfold GoMap.hasKey at hk
              rw [h] at hk
              simp at hk
            rw [GoMap.lookup_assign_ne s e c _ hec]
            exact h
          · simp only [hk, if_true]
            exact ih es s c r h

theorem deleteBatch_preserves (uid : String) :
    ∀ (ids : List String) (s : MemState) (c : String) (r : MemoryRecord),
      s.lookup c = some r →
      ∃ r', (MemoryStorage.deleteBatch uid ids s).lookup c = some r' ∧
        tombstoneLe r r' := by
  intro ids
  induction ids with
  | nil =>
      intro s c r h
      exact ⟨r, h, tombstoneLe_refl r⟩
  | cons sid rest ih =>
      intro s c r h
      rw [MemoryStorage.deleteBatch]
      rcases hsid : s.lookup sid with _ | rs
      · simp only [hsid]
        exact ih s c r h
      · simp only [hsid]
        by_cases hown : rs.userID = uid
        · rw [if_pos hown]
          by_cases hc : c = sid
          · subst hc
            rw [h] at hsid
            cases hsid
            rcases ih (s.assign c { r with isDeleted := true }) c _
                (GoMap.lookup_assign_self s c _) with ⟨r', hr', hle⟩
            exact ⟨r', hr', tombstoneLe_trans r _ r' (tombstoneLe_raise r) hle⟩
          · have hlook :
                (s.assign sid { rs with isDeleted := true }).lookup c = some r := by
              rw [GoMap.lookup_assign_ne s sid c _ hc]
              exact h
            exact ih (s.assign sid { rs with isDeleted := true }) c r hlook
        · rw [if_neg hown]
          exact ih s c r h

theorem apply_preserves (op : StoreOp) (hop : op.isBatch = false) :
    ∀ (s : MemState) (c : String) (r : MemoryRecord), s.lookup c = some r →
      ∃ r', (op.apply s).lookup c = some r' ∧ tombstoneLe r r' := by
  intro s c r h
  cases op with
  | save e uid u b =>
      exact ⟨r, saveLoop_preserves uid u b 5 e s c r h, tombstoneLe_refl r⟩
  | saveBatch uid us b => simp [StoreOp.isBatch] at hop
  | deleteBatch uid ids => exact deleteBatch_preserves uid ids s c r h
  | loadFull sid => exact ⟨r, h, tombstoneLe_refl r⟩
  | loadUserURLs uid b => exact ⟨r, h, tombstoneLe_refl r⟩

theorem runOps_preserves :
    ∀ (ops : List StoreOp), (∀ op ∈ ops, op.isBatch = false) →
      ∀ (s : MemState) (c : String) (r : MemoryRecord), s.lookup c = some r →
        ∃ r', (runOps ops s).lookup c = some r' ∧ tombstoneLe r r' := by
  intro ops
  induction ops with
  | nil =>
      intro _ s c r h
      exact ⟨r, h, tombstoneLe_refl r⟩
  | cons op rest ih =>
      intro hops s c r h
      rcases apply_preserves op (hops op (List.mem_cons_self _ _)) s c r h with
        ⟨r1, hr1, hle1⟩
      rcases ih (fun o ho => hops o (List.mem_cons_of_mem _ ho)) (op.apply s) c
          r1 hr1 with ⟨r2, hr2, hle2⟩
      exact ⟨r2, hr2, tombstoneLe_trans r r1 r2 hle1 hle2⟩

theorem saveLoop_keysNodup (uid u b : String) :
    ∀ (fuel : Nat) (entropy : List String) (s : MemState),
      GoMap.keysNodup s →
      GoMap.keysNodup (MemoryStorage.saveLoop uid u b fuel entropy s).2 := by
  intro fuel
  induction fuel with
  | zero =>
      intro entropy s h
      exact h
  | succ fuel ih =>
      intro entropy s h
      cases entropy with
      | nil => exact h
      | cons e es =>
          rw [MemoryStorage.saveLoop]
          rcases hk : s.hasKey e with _ | _
          · simp only [hk, Bool.false_eq_true, if_false]
            exact GoMap.keysNodup_assign s e _ h
          · simp only [hk, if_true]
            exact ih es s h

theorem saveBatch_keysNodup (uid b : String) :
    ∀ (urls : List String) (s : MemState), GoMap.keysNodup s →
      GoMap.keysNodup (MemoryStorage.saveBatch uid urls b s).2 := by
  intro urls
  induction urls with
  | nil =>
      intro s h
      exact h
  | cons u rest ih =>
      intro s h
      rw [saveBatch_snd_cons]
      exact ih _ (GoMap.keysNodup_assign s _ _ h)

theorem deleteBatch_keysNodup (uid : String) :
    ∀ (ids : List String) (s : MemState), GoMap.keysNodup s →
      GoMap.keysNodup (MemoryStorage.deleteBatch uid ids s) := by
  intro ids
  induction ids with
  | nil =>
      intro s h
      exact h
  | cons sid rest ih =>
      intro s h
      rw [MemoryStorage.deleteBatch]
      rcases hsid : s.lookup sid with _ | rs
      · simp only [hsid]
        exact ih s h
      · simp only [hsid]
        by_cases hown : rs.userID = uid
        · rw [if_pos hown]
          exact ih _ (GoMap.keysNodup_assign s sid _ h)
        · rw [if_neg hown]
          exact ih s h

theorem apply_keysNodup (op : StoreOp) (s : MemState)
    (h : GoMap.keysNodup s) : GoMap.keysNodup (op.apply s) := by
  cases op with
  | save e uid u b => exact saveLoop_keysNodup uid u b 5 e s h
  | saveBatch uid us b => exact saveBatch_keysNodup uid b us s h
  | deleteBatch uid ids => exact deleteBatch_keysNodup uid ids s h
  | loadFull sid => exact h
  | loadUserURLs uid b => exact h

theorem runOps_keysNodup (ops : List StoreOp) :
    ∀ s : MemState, GoMap.keysNodup s → GoMap.keysNodup (runOps ops s) := by
  induction ops with
  | nil =>
      intro s h
      exact h
  | cons op rest ih =>
      intro s h
      exact ih _ (apply_keysNodup op s h)

theorem string_append_cancel_left (a b c : String) (h : a ++ b = a ++ c) :
    b = c := by
  have hd := congrArg String.data h
  simp only [String.data_append] at hd
  have h2 := List.append_cancel_left hd
  cases b
  cases c
  simp only at h2
  rw [h2]

theorem loadUserURLs_excludes (s : MemState) (hnd : GoMap.keysNodup s)
    (code uid base : String) (r : MemoryRecord)
    (h : s.lookup code = some r) (hdel : r.isDeleted = true) :
    ∀ e ∈ MemoryStorage.loadUserURLs s uid base,
      e.shortURL ≠ ensureSlash base ++ code := by
  intro e he hcontra
  rw [MemoryStorage.loadUserURLs] at he
  rcases List.mem_filterMap.mp he with ⟨p, hp, hpe⟩
  by_cases hcond : (decide (p.2.userID = uid) && !p.2.isDeleted) = true
  · rw [if_pos hcond] at hpe
    rcases Option.some.inj hpe with rfl
    simp only at hcontra
    have hkey : p.1 = code := string_append_cancel_left _ _ _ hcontra
    have hlk : s.lookup code = some p.2 := by
      rw [← hkey]
      exact GoMap.lookup_eq_some_of_mem s p.1 p.2 hnd (by
        rcases p with ⟨p1, p2⟩
        exact hp)
    rw [h] at hlk
    rcases Option.some.inj hlk with rfl
    simp only [hdel, Bool.not_true, Bool.and_false] at hcond
    exact Bool.noConfusion hcond
  · rw [if_neg hcond] at hpe
    cases hpe

/-! ### Frame and idempotence facts about `DeleteBatch` -/

theorem deleteBatch_lookup_not_listed (uid : String) :
    ∀ (ids : List String) (s : MemState) (c : String), c ∉ ids →
      (MemoryStorage.deleteBatch uid ids s).lookup c = s.lookup c := by
  intro ids
  induction ids with
  | nil =>
      intro s c _
      rfl
  | cons sid rest ih =>
      intro s c hc
      have hcs : c ≠ sid := fun h => hc (h ▸ List.mem_cons_self _ _)
      have hcr : c ∉ rest := fun h => hc (List.mem_cons_of_mem _ h)
      rw [MemoryStorage.deleteBatch]
      rcases hsid : s.lookup sid with _ | rs
      · simp only [hsid]
        exact ih s c hcr
      · simp only [hsid]
        by_cases hown : rs.userID = uid
        · rw [if_pos hown, ih _ c hcr,
            GoMap.lookup_assign_ne s sid c _ hcs]
        · rw [if_neg hown]
          exact ih s c hcr

theorem deleteBatch_lookup_foreign (uid : String) :
    ∀ (ids : List String) (s : MemState) (c : String) (r : MemoryRecord),
      s.lookup c = some r → r.userID ≠ uid →
      (MemoryStorage.deleteBatch uid ids s).lookup c = some r := by
  intro ids
  induction ids with
  | nil =>
      intro s c r h _
      exact h
  | cons sid rest ih =>
      intro s c r h hfor
      rw [MemoryStorage.deleteBatch]
      rcases hsid : s.lookup sid with _ | rs
      · simp only [hsid]
        exact ih s c r h hfor
      · simp only [hsid]
        by_cases hown : rs.userID = uid
        · rw [if_pos hown]
          have hcs : c ≠ sid := by
            intro hcs
            subst hcs
            rw [h] at hsid
            rcases Option.some.inj hsid with rfl
            exact hfor hown
          refine ih _ c r ?_ hfor
          rw [GoMap.lookup_assign_ne s sid c _ hcs]
          exact h
        · rw [if_neg hown]
          exact ih s c r h hfor

theorem deleteBatch_lookup_none (uid : String) :
    ∀ (ids : List String) (s : MemState) (c : String),
      s.lookup c = none →
      (MemoryStorage.deleteBatch uid ids s).lookup c = none := by
  intro ids
  induction ids with
  | nil =>
      intro s c h
      exact h
  | cons sid rest ih =>
      intro s c h
      rw [MemoryStorage.deleteBatch]
      rcases hsid : s.lookup sid with _ | rs
      · simp only [hsid]
        exact ih s c h
      · simp only [hsid]
        by_cases hown : rs.userID = uid
        · rw [if_pos hown]
          have hcs : c ≠ sid := by
            intro hcs
            subst hcs
            rw [h] at hsid
            cases hsid
          refine ih _ c ?_
          rw [GoMap.lookup_assign_ne s sid c _ hcs]
          exact h
        · rw [if_neg hown]
          exact ih s c h

theorem deleteBatch_lookup_target (uid : String) :
    ∀ (ids : List String) (s : MemState) (c : String) (r : MemoryRecord),
      s.lookup c = some r → r.userID = uid → c ∈ ids →
      (MemoryStorage.deleteBatch uid ids s).lookup c =
        some { r with isDeleted := true } := by
  intro ids
  induction ids with
  | nil =>
      intro s c r _ _ hc
      cases hc
  | cons sid rest ih =>
      intro s c r h hown hc
      rw [MemoryStorage.deleteBatch]
      by_cases hcs : c = sid
      · subst hcs
        rw [h]
        simp only
        rw [if_pos hown]
        by_cases hcr : c ∈ rest
        · have := ih (s.assign c { r with isDeleted := true }) c
            { r with isDeleted := true } (GoMap.lookup_assign_self s c _)
            hown hcr
          simpa using this
        · rw [deleteBatch_lookup_not_listed uid rest _ c hcr,
            GoMap.lookup_assign_self]
      · have hcr : c ∈ rest := by
          rcases List.mem_cons.mp hc with h' | h'
          · exact absurd h' hcs
          · exact h'
        rcases hsid : s.lookup sid with _ | rs
        · simp only [hsid]
          exact ih s c r h hown hcr
        · simp only [hsid]
          by_cases hown2 : rs.userID = uid
          · rw [if_pos hown2]
            refine ih _ c r ?_ hown hcr
            rw [GoMap.lookup_assign_ne s sid c _ hcs]
            exact h
          · rw [if_neg hown2]
            exact ih s c r h hown hcr

theorem deleteBatch_deleted_after (uid : String) (ids : List String)
    (s : MemState) (sid : String) (hmem : sid ∈ ids) (r' : MemoryRecord)
    (h' : (MemoryStorage.deleteBatch uid ids s).lookup sid = some r')
    (hown : r'.userID = uid) : r'.isDeleted = true := by
  rcases hs : s.lookup sid with _ | r
  · rw [deleteBatch_lookup_none uid ids s sid hs] at h'
    cases h'
  · by_cases ho : r.userID = uid
    · rw [deleteBatch_lookup_target uid ids s sid r hs ho hmem] at h'
      rcases Option.some.inj h' with rfl
      rfl
    · rw [deleteBatch_lookup_foreign uid ids s sid r hs ho] at h'
      rcases Option.some.inj h' with rfl
      exact absurd hown ho

theorem deleteBatch_id_of_deleted (uid : String) :
    ∀ (ids : List String) (s : MemState),
      (∀ sid ∈ ids, ∀ r : MemoryRecord, s.lookup sid = some r →
        r.userID = uid → r.isDeleted = true) →
      MemoryStorage.deleteBatch uid ids s = s := by
  intro ids
  induction ids with
  | nil =>
      intro s _
      rfl
  | cons sid rest ih =>
      intro s hinv
      rw [MemoryStorage.deleteBatch]
      rcases hsid : s.lookup sid with _ | rs
      · simp only [hsid]
        exact ih s (fun x hx => hinv x (List.mem_cons_of_mem _ hx))
      · simp only [hsid]
        by_cases hown : rs.userID = uid
        · rw [if_pos hown]
          have hdel : rs.isDeleted = true :=
            hinv sid (List.mem_cons_self _ _) rs hsid hown
          have hrec : ({ rs with isDeleted := true } : MemoryRecord) = rs := by
            cases rs
            simp_all
          rw [hrec, GoMap.assign_of_lookup_some_self s sid rs hsid]
          exact ih s (fun x hx => hinv x (List.mem_cons_of_mem _ hx))
        · rw [if_neg hown]
          exact ih s (fun x hx => hinv x (List.mem_cons_of_mem _ hx))

theorem deleteBatch_idem (uid : String) (ids : List String) (s : MemState) :
    MemoryStorage.deleteBatch uid ids (MemoryStorage.deleteBatch uid ids s) =
      MemoryStorage.deleteBatch uid ids s := by
  apply deleteBatch_id_of_deleted
  intro sid hmem r h hown
  exact deleteBatch_deleted_after uid ids s sid hmem r h hown

/-! ### The shape of the `Save` retry loop -/

theorem saveLoop_take (uid u b : String) :
    ∀ (fuel : Nat) (entropy : List String) (s : MemState),
      MemoryStorage.saveLoop uid u b fuel entropy s =
        MemoryStorage.saveLoop uid u b fuel (entropy.take fuel) s := by
  intro fuel
  induction fuel with
  | zero =>
      intro entropy s
      rfl
  | succ fuel ih =>
      intro entropy s
      cases entropy with
      | nil => rfl
      | cons e es =>
          rw [List.take_succ_cons, MemoryStorage.saveLoop,
            MemoryStorage.saveLoop]
          rcases hk : s.hasKey e with _ | _
          · simp only [hk, Bool.false_eq_true, if_false]
          · simp only [hk, if_true]
            exact ih es s

theorem saveLoop_exhausted (uid u b : String) :
    ∀ (fuel : Nat) (entropy : List String) (s : MemState),
      (∀ x ∈ entropy.take fuel, s.hasKey x = true) →
      fuel ≤ entropy.length →
      MemoryStorage.saveLoop uid u b fuel entropy s =
        (Except.error SaveErr.exhausted, s) := by
  intro fuel
  induction fuel with
  | zero =>
      intro entropy s _ _
      rfl
  | succ fuel ih =>
      intro entropy s hall hlen
      cases entropy with
      | nil => simp at hlen
      | cons e es =>
          rw [MemoryStorage.saveLoop]
          have hke : s.hasKey e = true := by
            refine hall e ?_
            rw [List.take_succ_cons]
            exact List.mem_cons_self _ _
          simp only [hke, if_true]
          refine ih es s ?_ ?_
          · intro x hx
            refine hall x ?_
            rw [List.take_succ_cons]
            exact List.mem_cons_of_mem _ hx
          · simpa using Nat.le_of_succ_le_succ (by simpa using hlen)

theorem saveLoop_ok (uid u b : String) :
    ∀ (fuel : Nat) (entropy : List String) (s : MemState) (res : String)
      (s' : MemState),
      MemoryStorage.saveLoop uid u b fuel entropy s = (Except.ok res, s') →
      ∃ pre c post, entropy = pre ++ c :: post ∧ pre.length + 1 ≤ fuel ∧
        (∀ x ∈ pre, s.hasKey x = true) ∧ s.hasKey c = false ∧
        res = ensureSlash b ++ c ∧
        s' = s.assign c ⟨u, uid, false⟩ := by
  intro fuel
  induction fuel with
  | zero =>
      intro entropy s res s' h
      simp [MemoryStorage.saveLoop] at h
  | succ fuel ih =>
      intro entropy s res s' h
      cases entropy with
      | nil => simp [MemoryStorage.saveLoop] at h
      | cons e es =>
          rw [MemoryStorage.saveLoop] at h
          rcases hk : s.hasKey e with _ | _
          · simp only [hk, Bool.false_eq_true, if_false, Prod.mk.injEq,
              Except.ok.injEq] at h
            refine ⟨[], e, es, rfl, Nat.succ_le_succ (Nat.zero_le fuel),
              by simp, hk, h.1.symm, h.2.symm⟩
          · simp only [hk, if_true] at h
            rcases ih es s res s' h with
              ⟨pre, c, post, heq, hlen, hall, hc, hres, hs'⟩
            refine ⟨e :: pre, c, post, by rw [heq]; simp, by simp; omega, ?_,
              hc, hres, hs'⟩
            intro x hx
            rcases List.mem_cons.mp hx with rfl | hx
            · exact hk
            · exact hall x hx

theorem storeA_eq : storeA = [("10000000", recA)] := by rfl

theorem storeADel_eq :
    storeADel = [("10000000", ⟨"https://a.example", "u1", true⟩)] := by rfl

theorem bigBatch_snd (s : MemState) (hs : s = padState (⟨"https://a.example", "u1", true⟩ : MemoryRecord) ("u2") ("https://b.example") 0 ∨
    s = padState recA ("u2") ("https://b.example") 0) :
    (bigBatch s).2 =
      ("10000000", (⟨"https://b.example", "u2", false⟩ : MemoryRecord)) ::
        (List.range (bigN - 1)).map
          (fun i =>
            (hexStr (1 + i),
             (⟨"https://b.example", "u2", false⟩ : MemoryRecord))) := by
  rcases hs with hs | hs <;>
    · rw [bigBatch, hs]
      exact saveBatch_padState _ _ _ _ bigN 0 (by omega) (by norm_num [bigN])

/-! ### Relational-store facts -/

theorem selectCodeByURL_any (t : Table) (u code : String)
    (h : selectCodeByURL t u = some code) :
    t.any (fun row => row.originalURL == u) = true := by
  rw [selectCodeByURL] at h
  rcases hf : t.find? (fun row => row.originalURL == u) with _ | row
  · rw [hf] at h
    cases h
  · have hmem := List.mem_of_find?_eq_some hf
    have hp := List.find?_some hf
    exact List.any_eq_true.mpr ⟨row, hmem, hp⟩

theorem rdbSave_conflict (t : Table) (uid u b code : String)
    (c : String) (cs : List String)
    (hsel : selectCodeByURL t u = some code) :
    RDB.save (c :: cs) uid u b t =
      (RdbSaveOutcome.conflict (ensureSlash b ++ code), t) := by
  rw [RDB.save, RDB.saveLoop]
  have hany := selectCodeByURL_any t u code hsel
  simp only [insertOnConflict, hany, if_true, hsel]

theorem rdbSaveLoop_exhausted (uid u b : String) :
    ∀ (fuel : Nat) (entropy : List String) (t : Table),
      t.any (fun row => row.originalURL == u) = false →
      (∀ x ∈ entropy.take fuel, t.any (fun row => row.shortID == x) = true) →
      fuel ≤ entropy.length →
      RDB.saveLoop uid u b fuel entropy t = (RdbSaveOutcome.exhausted, t) := by
  intro fuel
  induction fuel with
  | zero =>
      intro entropy t _ _ _
      rfl
  | succ fuel ih =>
      intro entropy t hurl hall hlen
      cases entropy with
      | nil => simp at hlen
      | cons e es =>
          rw [RDB.saveLoop]
          have hke : t.any (fun row => row.shortID == e) = true := by
            refine hall e ?_
            rw [List.take_succ_cons]
            exact List.mem_cons_self _ _
          simp only [insertOnConflict, hurl, Bool.false_eq_true, if_false,
            hke, if_true]
          refine ih es t hurl ?_ ?_
          · intro x hx
            refine hall x ?_
            rw [List.take_succ_cons]
            exact List.mem_cons_of_mem _ hx
          · simpa using Nat.le_of_succ_le_succ (by simpa using hlen)

theorem rdbSaveBatch_execError_rollback (e : List String) (uid : String)
    (urls : List String) (b : String) (t : Table)
    (h : (RDB.saveBatch e uid urls b t).1 = RDB.BatchOutcome.execError) :
    (RDB.saveBatch e uid urls b t).2 = t := by
  rw [RDB.saveBatch] at h ⊢
  rcases hq : RDB.queueStmts e uid urls with _ | stmts
  · simp only [hq]
  · rcases hp : RDB.runPipeline stmts t with _ | pr
    · simp only [hq, hp]
    · rcases pr with ⟨results, t'⟩
      rcases hr : RDB.readResults t b urls results with _ | out
      · simp only [hq, hp, hr] at h
        simp at h
      · simp only [hq, hp, hr] at h
        simp at h

theorem rdbSaveBatch_fatal_scenario (t : Table) (uid b uA uB cA cB : String)
    (hA1 : t.any (fun row => row.originalURL == uA) = false)
    (hA2 : t.any (fun row => row.shortID == cA) = false)
    (hB1 : t.any (fun row => row.originalURL == uB) = false)
    (hAB : (uA == uB) = false)
    (hB2 : t.any (fun row => row.shortID == cB) = true) :
    RDB.saveBatch [cA, cB] uid [uA, uB] b t =
      (RDB.BatchOutcome.execError, t) := by
  rw [RDB.saveBatch]
  have hq : RDB.queueStmts [cA, cB] uid [uA, uB] =
      some [⟨cA, uA, uid⟩, ⟨cB, uB, uid⟩] := rfl
  rw [hq]
  have horig2 :
      (t ++ [(⟨cA, uA, uid, false⟩ : Row)]).any
        (fun row => row.originalURL == uB) = false := by
    rw [List.any_append]
    simp [hB1, hAB]
  have hshort2 :
      (t ++ [(⟨cA, uA, uid, false⟩ : Row)]).any
        (fun row => row.shortID == cB) = true := by
    rw [List.any_append]
    simp [hB2]
  simp only [RDB.runPipeline, insertOnConflict, hA1, hA2, Bool.false_eq_true,
    if_false, horig2, hshort2, if_true, Option.map_none']

theorem rdbSaveBatch_conflict_scenario (t : Table)
    (uid b uA uB cA cB cB0 : String)
    (hA1 : t.any (fun row => row.originalURL == uA) = false)
    (hA2 : t.any (fun row => row.shortID == cA) = false)
    (hBsel : selectCodeByURL t uB = some cB0) :
    RDB.saveBatch [cA, cB] uid [uA, uB] b t =
      (RDB.BatchOutcome.ok [ensureSlash b ++ cA, ensureSlash b ++ cB0],
       t ++ [⟨cA, uA, uid, false⟩]) := by
  rw [RDB.saveBatch]
  have hq : RDB.queueStmts [cA, cB] uid [uA, uB] =
      some [⟨cA, uA, uid⟩, ⟨cB, uB, uid⟩] := rfl
  rw [hq]
  have horig2 :
      (t ++ [(⟨cA, uA, uid, false⟩ : Row)]).any
        (fun row => row.originalURL == uB) = true := by
    rw [List.any_append]
    simp [selectCodeByURL_any t uB cB0 hBsel]
  simp only [RDB.runPipeline, insertOnConflict, hA1, hA2, Bool.false_eq_true,
    if_false, horig2, if_true, Option.map_some', RDB.readResults, hBsel]

theorem rdb_deleteBatch_frame (uid : String) (ids : List String) (t : Table)
    (i : Nat) (row : Row) (h : t[i]? = some row)
    (hrow : row.userID ≠ uid ∨ row.shortID ∉ ids) :
    (RDB.deleteBatch uid ids t)[i]? = some row := by
  rw [RDB.deleteBatch, List.getElem?_map, h, Option.map_some']
  congr 1
  rcases hrow with h1 | h1
  · have hb : (row.userID == uid) = false := beq_eq_false_iff_ne.mpr h1
    simp [hb]
  · have hb : ids.any (fun sid => sid == row.shortID) = false := by
      rw [List.any_eq_false]
      intro sid hsid hcontra
      exact h1 ((beq_iff_eq.mp hcontra) ▸ hsid)
    simp [hb]

theorem rdb_deleteBatch_idem (uid : String) (ids : List String) (t : Table) :
    RDB.deleteBatch uid ids (RDB.deleteBatch uid ids t) =
      RDB.deleteBatch uid ids t := by
  unfold RDB.deleteBatch
  rw [List.map_map]
  refine List.map_congr_left ?_
  intro row _
  simp only [Function.comp_apply]
  by_cases hc : (row.userID == uid && ids.any (fun sid => sid == row.shortID)) = true
  · rw [if_pos hc, if_pos hc]
  · rw [if_neg hc, if_neg hc]

/-! ### File-journal recovery facts -/

theorem lastRecordFor_cons (line : JournalLine) (rest : List JournalLine)
    (c : String) :
    lastRecordFor (line :: rest) c =
      match lastRecordFor rest c with
      | some r => some r
      | none =>
          match decodeLine line with
          | some r => if r.shortURL == c then some r else none
          | none => none := by
  rw [lastRecordFor, lastRecordFor, List.filterMap_cons]
  rcases hdl : decodeLine line with _ | r
  · rcases h1 : ((rest.filterMap decodeLine).reverse).find?
        (fun r => r.shortURL == c) with _ | r
    · rw [h1]
    · rw [h1]
  · rw [List.reverse_cons, List.find?_append]
    rcases h1 : ((rest.filterMap decodeLine).reverse).find?
        (fun r => r.shortURL == c) with _ | r'
    · rw [h1]
      by_cases hsc : (r.shortURL == c) = true
      · simp [List.find?_cons, hsc]
      · simp [List.find?_cons, hsc]
    · rw [h1]
      rfl

theorem foldl_replayLine_lookup :
    ∀ (lines : List JournalLine) (m : GoMap FileRecord) (c : String),
      (lines.foldl replayLine m).lookup c =
        match lastRecordFor lines c with
        | some r => some r
        | none => m.lookup c := by
  intro lines
  induction lines with
  | nil =>
      intro m c
      rfl
  | cons line rest ih =>
      intro m c
      rw [List.foldl_cons, ih, lastRecordFor_cons]
      rcases hrest : lastRecordFor rest c with _ | r
      · rcases hdl : decodeLine line with _ | r
        · simp [replayLine, hdl]
        · simp only [replayLine, hdl]
          by_cases hsc : (r.shortURL == c) = true
          · have hceq : c = r.shortURL := (beq_iff_eq.mp hsc).symm
            rw [if_pos hsc, hceq, GoMap.lookup_assign_self]
          · have hne : c ≠ r.shortURL := by
              intro hcontra
              exact absurd (beq_iff_eq.mpr hcontra.symm) (by simp [hsc])
            rw [if_neg (by simp [hsc]), GoMap.lookup_assign_ne _ _ _ _ hne]
      · rfl

theorem loadFromFile_lookup (lines : List JournalLine) (c : String) :
    (loadFromFile lines).lookup c =
      match lastRecordFor lines c with
      | some r => some r
      | none => none := by
  rw [loadFromFile, foldl_replayLine_lookup lines [] c]
  rcases lastRecordFor lines c with _ | r <;> rfl

theorem loadFromFile_skip (l1 l2 : List JournalLine) (bad : JournalLine)
    (h : decodeLine bad = none) :
    loadFromFile (l1 ++ bad :: l2) = loadFromFile (l1 ++ l2) := by
  rw [loadFromFile, loadFromFile, List.foldl_append, List.foldl_append,
    List.foldl_cons]
  congr 1
  simp [replayLine, h]

/-! ### Claims -/

/-- C1: for every valid URL submitted once to a fresh store (the entropy
source delivering at least one draw), `Save` returns the base prefix
concatenated with a code, and `LoadFull` on that code returns the original
URL with `isDeleted = false`. -/
theorem claim1_save_then_loadFull (c : String) (cs : List String)
    (uid u b : String) (hvalid : goURLParse u = some u) :
    ∃ code,
      (MemoryStorage.save (c :: cs) uid u b []).1 =
        Except.ok (ensureSlash b ++ code) ∧
      MemoryStorage.loadFull (MemoryStorage.save (c :: cs) uid u b []).2
          code = Except.ok (u, false) := by
  have hsave : MemoryStorage.save (c :: cs) uid u b [] =
      (Except.ok (ensureSlash b ++ c), [(c, ⟨u, uid, false⟩)]) := by
    rw [MemoryStorage.save, MemoryStorage.saveLoop]
    simp [GoMap.hasKey, GoMap.lookup, GoMap.assign]
  refine ⟨c, ?_, ?_⟩ <;> rw [hsave]
  simp [MemoryStorage.loadFull, GoMap.lookup, hvalid]

/-- Witness for C1 at concrete inputs. -/
theorem claim1_witness :
    goURLParse ("https://example.com") = some ("https://example.com") ∧
    ∃ code,
      (MemoryStorage.save ["abcdefgh"] ("u1") ("https://example.com")
          ("http://x/") []).1 = Except.ok (ensureSlash ("http://x/") ++ code) ∧
      MemoryStorage.loadFull
          (MemoryStorage.save ["abcdefgh"] ("u1") ("https://example.com")
            ("http://x/") []).2 code =
        Except.ok (("https://example.com"), false) :=
  ⟨by decide, claim1_save_then_loadFull ("abcdefgh") [] ("u1")
    ("https://example.com") ("http://x/") (by decide)⟩

/-- C2 counterexample: `SaveBatch` does re-allocate an existing code.  After
`Save` has allocated the eight-character code `"10000000"`, a `SaveBatch` of
`bigN = 16^7` URLs computes `fmt.Sprintf("%x", len)` = `"10000000"` for its
last URL and overwrites the record stored under that code with a new one
(new URL, new owner). -/
theorem claim2_counterexample :
    GoMap.lookup storeA ("10000000") = some recA ∧
    GoMap.lookup (bigBatch storeA).2 ("10000000") =
      some ⟨"https://b.example", "u2", false⟩ ∧
    recA ≠ (⟨"https://b.example", "u2", false⟩ : MemoryRecord) := by
  refine ⟨by rw [storeA_eq]; rfl, ?_, by decide⟩
  rw [bigBatch_snd storeA (Or.inr (by rw [storeA_eq]; simp [padState]))]
  rfl

/-- C2 corrected: in any operation sequence that contains no `SaveBatch`, a
code is never re-bound: the record under an existing code keeps its URL and
its owner, and at most its deletion flag is raised (`Save` inserts only
absent codes, `DeleteBatch` only tombstones owned records).  `SaveBatch`,
however, can re-allocate an existing code, because it keys records by
`fmt.Sprintf("%x", len(map))` and assigns unconditionally. -/
theorem claim2_amended_no_rebind (ops : List StoreOp)
    (hops : ∀ op ∈ ops, op.isBatch = false) (s : MemState) (c : String)
    (r : MemoryRecord) (h : s.lookup c = some r) :
    ∃ r', (runOps ops s).lookup c = some r' ∧
      r'.originalURL = r.originalURL ∧ r'.userID = r.userID ∧
      (r.isDeleted = true → r'.isDeleted = true) := by
  rcases runOps_preserves ops hops s c r h with ⟨r', h1, h2⟩
  exact ⟨r', h1, h2.1, h2.2.1, h2.2.2⟩

/-- Witness for the corrected C2 at concrete inputs. -/
theorem claim2_witness :
    ∃ r', (runOps
        [StoreOp.save ["c2"] ("u2") ("https://b.example") ("http://x/")]
        [(("c1" : String), recA)]).lookup ("c1") = some r' ∧
      r'.originalURL = recA.originalURL ∧ r'.userID = recA.userID ∧
      (recA.isDeleted = true → r'.isDeleted = true) :=
  claim2_amended_no_rebind
    [StoreOp.save ["c2"] ("u2") ("https://b.example") ("http://x/")]
    (by intro op hop; simp at hop; subst hop; rfl)
    [(("c1" : String), recA)] ("c1") recA (by decide)

/-- C5 counterexample: the tombstone is not permanent under every subsequent
operation.  After the owner tombstones `"10000000"` (`LoadFull` reports the
record deleted), the pathological `SaveBatch` overwrites the record and a
subsequent `LoadFull` reports a live record again. -/
theorem claim5_counterexample :
    MemoryStorage.loadFull storeADel ("10000000") =
      Except.ok (("https://a.example"), true) ∧
    MemoryStorage.loadFull (bigBatch storeADel).2 ("10000000") =
      Except.ok (("https://b.example"), false) := by
  constructor
  · rw [storeADel_eq]
    have hparse : goURLParse ("https://a.example") =
        some ("https://a.example") := by decide
    rw [MemoryStorage.loadFull]
    simp [GoMap.lookup, hparse]
  · rw [bigBatch_snd storeADel (Or.inl (by rw [storeADel_eq]; simp [padState]))]
    have hparse : goURLParse ("https://b.example") =
        some ("https://b.example") := by decide
    have hlook :
        GoMap.lookup
          (("10000000", (⟨"https://b.example", "u2", false⟩ : MemoryRecord)) ::
            (List.range (bigN - 1)).map
              (fun i =>
                (hexStr (1 + i),
                 (⟨"https://b.example", "u2", false⟩ : MemoryRecord))))
          ("10000000") =
        some ⟨"https://b.example", "u2", false⟩ := by
      rw [GoMap.lookup]
      simp
    rw [MemoryStorage.loadFull, hlook]
    simp [hparse]

/-- C5 corrected: once a code is tombstoned via `DeleteBatch` by its owner,
`LoadFull` reports the tombstone (success with `isDeleted = true`, distinct
from the `notFound` error) and `LoadUserURLs` for the owner excludes the
code, and this persists under any further operations other than
`SaveBatch`; a `SaveBatch` can overwrite the record and revive the code
(see the counterexample). -/
theorem claim5_amended_tombstone (s : MemState) (hnd : GoMap.keysNodup s)
    (uid base code : String) (ids : List String) (r : MemoryRecord)
    (h : s.lookup code = some r) (hown : r.userID = uid) (hmem : code ∈ ids)
    (hvalid : goURLParse r.originalURL = some r.originalURL)
    (ops : List StoreOp) (hops : ∀ op ∈ ops, op.isBatch = false) :
    MemoryStorage.loadFull
        (runOps ops (MemoryStorage.deleteBatch uid ids s)) code =
      Except.ok (r.originalURL, true) ∧
    ∀ e ∈ MemoryStorage.loadUserURLs
        (runOps ops (MemoryStorage.deleteBatch uid ids s)) uid base,
      e.shortURL ≠ ensureSlash base ++ code := by
  have h1 := deleteBatch_lookup_target uid ids s code r h hown hmem
  rcases runOps_preserves ops hops _ code _ h1 with ⟨r', hr', hle⟩
  have hurl : r'.originalURL = r.originalURL := hle.1
  have hdel : r'.isDeleted = true := hle.2.2 rfl
  have hnd2 :
      GoMap.keysNodup (runOps ops (MemoryStorage.deleteBatch uid ids s)) :=
    runOps_keysNodup ops _ (deleteBatch_keysNodup uid ids s hnd)
  constructor
  · rw [MemoryStorage.loadFull, hr']
    simp [hurl, hvalid, hdel]
  · intro e he
    exact loadUserURLs_excludes _ hnd2 code uid base r' hr' hdel e he

/-- Witness for the corrected C5 at concrete inputs. -/
theorem claim5_witness :
    MemoryStorage.loadFull
        (runOps []
          (MemoryStorage.deleteBatch ("u1") ["c1"]
            [(("c1" : String),
              (⟨"https://a.example", "u1", false⟩ : MemoryRecord))]))
        ("c1") = Except.ok (("https://a.example"), true) ∧
    ∀ e ∈ MemoryStorage.loadUserURLs
        (runOps []
          (MemoryStorage.deleteBatch ("u1") ["c1"]
            [(("c1" : String),
              (⟨"https://a.example", "u1", false⟩ : MemoryRecord))]))
        ("u1") ("http://x/"),
      e.shortURL ≠ ensureSlash ("http://x/") ++ ("c1") :=
  claim5_amended_tombstone
    [(("c1" : String), (⟨"https://a.example", "u1", false⟩ : MemoryRecord))]
    (by unfold GoMap.keysNodup; decide) ("u1") ("http://x/") ("c1") ["c1"]
    (⟨"https://a.example", "u1", false⟩ : MemoryRecord)
    (by decide) (by decide) (by decide) (by decide) []
    (by intro op hop; cases hop)

/-- C7 counterexample: `IsDeleted` is not monotonic under every operation.
The tombstoned record under `"10000000"` is overwritten by the pathological
`SaveBatch` with a live record: the flag reverts from true to false for that
short code. -/
theorem claim7_counterexample :
    GoMap.lookup storeADel ("10000000") =
      some ⟨"https://a.example", "u1", true⟩ ∧
    GoMap.lookup (bigBatch storeADel).2 ("10000000") =
      some ⟨"https://b.example", "u2", false⟩ := by
  refine ⟨by rw [storeADel_eq]; rfl, ?_⟩
  rw [bigBatch_snd storeADel (Or.inl (by rw [storeADel_eq]; simp [padState]))]
  rfl

/-- C7 corrected: `IsDeleted` is monotonic under every sequence of
operations that contains no `SaveBatch`; `SaveBatch` can overwrite the
record under an existing code with a live one (see the counterexample). -/
theorem claim7_amended_monotone (ops : List StoreOp)
    (hops : ∀ op ∈ ops, op.isBatch = false) (s : MemState) (c : String)
    (r : MemoryRecord) (h : s.lookup c = some r)
    (hdel : r.isDeleted = true) :
    ∃ r', (runOps ops s).lookup c = some r' ∧ r'.isDeleted = true := by
  rcases runOps_preserves ops hops s c r h with ⟨r', h1, h2⟩
  exact ⟨r', h1, h2.2.2 hdel⟩

/-- Witness for the corrected C7 at concrete inputs. -/
theorem claim7_witness :
    ∃ r', (runOps [StoreOp.deleteBatch ("u2") ["c1"]]
        [(("c1" : String),
          (⟨"https://a.example", "u1", true⟩ : MemoryRecord))]).lookup
        ("c1") = some r' ∧ r'.isDeleted = true :=
  claim7_amended_monotone [StoreOp.deleteBatch ("u2") ["c1"]]
    (by intro op hop; simp at hop; subst hop; rfl) _ ("c1")
    ⟨"https://a.example", "u1", true⟩ (by decide) (by decide)

/-- C3: on the relational variant, if the submitted original URL already has
a record (the lookup `SELECT short_id ... WHERE original_url` succeeds),
`Save` returns the previously assigned code — not a freshly drawn one — with
the distinguishable conflict outcome, and the table gains no row. -/
theorem claim3_rdb_conflict (t : Table) (uid u b code : String) (c : String)
    (cs : List String) (hsel : selectCodeByURL t u = some code) :
    RDB.save (c :: cs) uid u b t =
      (RdbSaveOutcome.conflict (ensureSlash b ++ code), t) ∧
    ∀ res, RdbSaveOutcome.conflict (ensureSlash b ++ code) ≠
      RdbSaveOutcome.ok res := by
  refine ⟨rdbSave_conflict t uid u b code c cs hsel, ?_⟩
  intro res h
  cases h

/-- Witness for C3 at concrete inputs. -/
theorem claim3_witness :
    RDB.save ["zzzzzzzz"] ("u2") ("https://example.com") ("http://x/")
        [(⟨"abc12345", "https://example.com", "u1", false⟩ : Row)] =
      (RdbSaveOutcome.conflict (ensureSlash ("http://x/") ++ ("abc12345")),
       [(⟨"abc12345", "https://example.com", "u1", false⟩ : Row)]) :=
  (claim3_rdb_conflict
    [(⟨"abc12345", "https://example.com", "u1", false⟩ : Row)] ("u2")
    ("https://example.com") ("http://x/") ("abc12345") ("zzzzzzzz") []
    (by decide)).1

/-- C4: on the relational variant, `SaveBatch` is all-or-nothing: an
`execError` outcome (a fatal statement error inside the pipelined batch)
leaves the table exactly as it was — in particular, in the two-URL scenario
where the second INSERT raises a fatal `short_id` unique violation, neither
URL is persisted even though the first INSERT succeeded inside the batch —
while a per-row original-URL conflict is resolved inline by the follow-up
SELECT without aborting the batch. -/
theorem claim4_batch_atomic :
    (∀ (e : List String) (uid : String) (urls : List String) (b : String)
        (t : Table),
        (RDB.saveBatch e uid urls b t).1 = RDB.BatchOutcome.execError →
        (RDB.saveBatch e uid urls b t).2 = t) ∧
    (∀ (t : Table) (uid b uA uB cA cB : String),
        t.any (fun row => row.originalURL == uA) = false →
        t.any (fun row => row.shortID == cA) = false →
        t.any (fun row => row.originalURL == uB) = false →
        (uA == uB) = false →
        t.any (fun row => row.shortID == cB) = true →
        RDB.saveBatch [cA, cB] uid [uA, uB] b t =
          (RDB.BatchOutcome.execError, t)) ∧
    (∀ (t : Table) (uid b uA uB cA cB cB0 : String),
        t.any (fun row => row.originalURL == uA) = false →
        t.any (fun row => row.shortID == cA) = false →
        selectCodeByURL t uB = some cB0 →
        RDB.saveBatch [cA, cB] uid [uA, uB] b t =
          (RDB.BatchOutcome.ok [ensureSlash b ++ cA, ensureSlash b ++ cB0],
           t ++ [⟨cA, uA, uid, false⟩])) := by
  refine ⟨?_, ?_, ?_⟩
  · intro e uid urls b t h
    exact rdbSaveBatch_execError_rollback e uid urls b t h
  · intro t uid b uA uB cA cB h1 h2 h3 h4 h5
    exact rdbSaveBatch_fatal_scenario t uid b uA uB cA cB h1 h2 h3 h4 h5
  · intro t uid b uA uB cA cB cB0 h1 h2 h3
    exact rdbSaveBatch_conflict_scenario t uid b uA uB cA cB cB0 h1 h2 h3

/-- Witness for C4: the concrete rollback scenario of the spec, with
`urlB`'s statement hitting a fatal `short_id` collision. -/
theorem claim4_witness :
    RDB.saveBatch ["cccc", "pre00000"] ("u1") ["https://a.example", "https://b.example"]
        ("http://x/")
        [(⟨"pre00000", "https://old.example", "u9", false⟩ : Row)] =
      (RDB.BatchOutcome.execError,
       [(⟨"pre00000", "https://old.example", "u9", false⟩ : Row)]) :=
  claim4_batch_atomic.2.1
    [(⟨"pre00000", "https://old.example", "u9", false⟩ : Row)] ("u1")
    ("http://x/") ("https://a.example") ("https://b.example") ("cccc")
    ("pre00000") (by decide) (by decide) (by decide) (by decide) (by decide)

/-- C6: `DeleteBatch(owner, codes)` touches only records both listed and
owned: a listed code owned by someone else keeps its record bit-for-bit, an
absent code stays absent (no error is possible: both variants always
succeed), and repeating the call is idempotent — on the in-memory map and,
positionally, on the relational table. -/
theorem claim6_deleteBatch_frame (uid : String) (ids : List String) :
    (∀ (s : MemState) (c : String) (r : MemoryRecord), s.lookup c = some r →
        c ∉ ids → (MemoryStorage.deleteBatch uid ids s).lookup c = some r) ∧
    (∀ (s : MemState) (c : String) (r : MemoryRecord), s.lookup c = some r →
        r.userID ≠ uid →
        (MemoryStorage.deleteBatch uid ids s).lookup c = some r) ∧
    (∀ (s : MemState) (c : String), s.lookup c = none →
        (MemoryStorage.deleteBatch uid ids s).lookup c = none) ∧
    (∀ s : MemState,
        MemoryStorage.deleteBatch uid ids
            (MemoryStorage.deleteBatch uid ids s) =
          MemoryStorage.deleteBatch uid ids s) ∧
    (∀ (t : Table) (i : Nat) (row : Row), t[i]? = some row →
        row.userID ≠ uid ∨ row.shortID ∉ ids →
        (RDB.deleteBatch uid ids t)[i]? = some row) ∧
    (∀ t : Table,
        RDB.deleteBatch uid ids (RDB.deleteBatch uid ids t) =
          RDB.deleteBatch uid ids t) := by
  refine ⟨?_, ?_, ?_, ?_, ?_, ?_⟩
  · intro s c r h hni
    rw [deleteBatch_lookup_not_listed uid ids s c hni]
    exact h
  · intro s c r h hfor
    exact deleteBatch_lookup_foreign uid ids s c r h hfor
  · intro s c h
    exact deleteBatch_lookup_none uid ids s c h
  · intro s
    exact deleteBatch_idem uid ids s
  · intro t i row h hrow
    exact rdb_deleteBatch_frame uid ids t i row h hrow
  · intro t
    exact rdb_deleteBatch_idem uid ids t

/-- Witness for C6: a code owned by another user is left unaffected. -/
theorem claim6_witness :
    (MemoryStorage.deleteBatch ("u1") ["c1"]
        [(("c1" : String),
          (⟨"https://b.example", "u2", false⟩ : MemoryRecord))]).lookup
        ("c1") =
      some ⟨"https://b.example", "u2", false⟩ :=
  (claim6_deleteBatch_frame ("u1") ["c1"]).2.1
    [(("c1" : String), (⟨"https://b.example", "u2", false⟩ : MemoryRecord))]
    ("c1") (⟨"https://b.example", "u2", false⟩ : MemoryRecord) (by decide)
    (by decide)

/-- C8: `Save` makes at most five allocation attempts — only the first five
entropy draws can matter — each successful run inserts a freshly drawn
absent code after skipping the collided earlier draws (never re-using a
collided value), and when all five draws collide it fails with the
allocation-exhausted error and the store gains no record; the relational
`Save` likewise returns its exhaustion error with the table unchanged after
five `short_id` collisions. -/
theorem claim8_save_retry (uid u b : String) :
    (∀ (entropy : List String) (s : MemState),
        MemoryStorage.save entropy uid u b s =
          MemoryStorage.save (entropy.take 5) uid u b s) ∧
    (∀ (entropy : List String) (s : MemState) (res : String) (s' : MemState),
        MemoryStorage.save entropy uid u b s = (Except.ok res, s') →
        ∃ pre c post, entropy = pre ++ c :: post ∧ pre.length + 1 ≤ 5 ∧
          (∀ x ∈ pre, s.hasKey x = true) ∧ s.hasKey c = false ∧
          res = ensureSlash b ++ c ∧
          s' = s.assign c ⟨u, uid, false⟩) ∧
    (∀ (entropy : List String) (s : MemState),
        (∀ x ∈ entropy.take 5, s.hasKey x = true) → 5 ≤ entropy.length →
        MemoryStorage.save entropy uid u b s =
          (Except.error SaveErr.exhausted, s)) ∧
    (∀ (entropy : List String) (t : Table),
        t.any (fun row => row.originalURL == u) = false →
        (∀ x ∈ entropy.take 5, t.any (fun row => row.shortID == x) = true) →
        5 ≤ entropy.length →
        RDB.save entropy uid u b t = (RdbSaveOutcome.exhausted, t)) := by
  refine ⟨?_, ?_, ?_, ?_⟩
  · intro e s
    exact saveLoop_take uid u b 5 e s
  · intro e s res s' h
    exact saveLoop_ok uid u b 5 e s res s' h
  · intro e s h1 h2
    exact saveLoop_exhausted uid u b 5 e s h1 h2
  · intro e t h1 h2 h3
    exact rdbSaveLoop_exhausted uid u b 5 e t h1 h2 h3

/-- Witness for C8: five collisions exhaust the budget and leave the store
unchanged. -/
theorem claim8_witness :
    MemoryStorage.save ["c1", "c1", "c1", "c1", "c1"] ("u1")
        ("https://a.example") ("http://x/")
        [(("c1" : String), (⟨"https://old.example", "u1", false⟩ : MemoryRecord))] =
      (Except.error SaveErr.exhausted,
       [(("c1" : String), (⟨"https://old.example", "u1", false⟩ : MemoryRecord))]) :=
  (claim8_save_retry ("u1") ("https://a.example") ("http://x/")).2.2.1
    ["c1", "c1", "c1", "c1", "c1"]
    [(("c1" : String), (⟨"https://old.example", "u1", false⟩ : MemoryRecord))]
    (by decide) (by decide)

/-- C9 counterexample: the file-journal record has no deletion flag, so the
claimed tombstone recovery cannot happen.  Replaying a record line for `c1`
followed by a line for `c1` with `is_deleted: true` (an unknown field, which
unmarshalling ignores) yields a mapping whose record is the zero-value
record of the second line, and `Load` then succeeds with its empty
`original_url` instead of reporting a gone/tombstoned code. -/
theorem claim9_counterexample :
    (loadFromFile
        [JournalLine.obj
            [("short_url", JsonVal.str ("c1")),
             ("original_url", JsonVal.str ("a"))],
         JournalLine.obj
            [("short_url", JsonVal.str ("c1")),
             ("is_deleted", JsonVal.boolean true)]]).lookup ("c1") =
      some ⟨"", "c1", "", ""⟩ ∧
    fileLoad
        (loadFromFile
          [JournalLine.obj
              [("short_url", JsonVal.str ("c1")),
               ("original_url", JsonVal.str ("a"))],
           JournalLine.obj
              [("short_url", JsonVal.str ("c1")),
               ("is_deleted", JsonVal.boolean true)]]) ("c1") =
      Except.ok ("") := by
  constructor
  · decide
  · rfl

/-- C9 corrected: startup replay is last-write-wins per code — the map binds
each code to the record of the last line that decodes to it — and a line
that fails to unmarshal is skipped without failing the scan; but the
journal record carries no deletion flag, so a later `is_deleted` line only
overwrites the mapping and recovery never reports a tombstoned code (see
the counterexample). -/
theorem claim9_amended_replay :
    (∀ (lines : List JournalLine) (c : String),
        (loadFromFile lines).lookup c =
          match lastRecordFor lines c with
          | some r => some r
          | none => none) ∧
    (∀ (l1 l2 : List JournalLine) (bad : JournalLine),
        decodeLine bad = none →
        loadFromFile (l1 ++ bad :: l2) = loadFromFile (l1 ++ l2)) := by
  constructor
  · intro lines c
    exact loadFromFile_lookup lines c
  · intro l1 l2 bad h
    exact loadFromFile_skip l1 l2 bad h

/-- Witness for the corrected C9: a malformed line between two good ones is
skipped. -/
theorem claim9_witness :
    loadFromFile
        [JournalLine.obj
            [("short_url", JsonVal.str ("c1")),
             ("original_url", JsonVal.str ("a"))],
         JournalLine.malformed,
         JournalLine.obj
            [("short_url", JsonVal.str ("c2")),
             ("original_url", JsonVal.str ("b"))]] =
      loadFromFile
        [JournalLine.obj
            [("short_url", JsonVal.str ("c1")),
             ("original_url", JsonVal.str ("a"))],
         JournalLine.obj
            [("short_url", JsonVal.str ("c2")),
             ("original_url", JsonVal.str ("b"))]] :=
  claim9_amended_replay.2
    [JournalLine.obj
        [("short_url", JsonVal.str ("c1")),
         ("original_url", JsonVal.str ("a"))]]
    [JournalLine.obj
        [("short_url", JsonVal.str ("c2")),
         ("original_url", JsonVal.str ("b"))]]
    JournalLine.malformed (by rfl)

/-- C10: `SaveBatch` with an empty URL list succeeds on every store variant:
it returns an empty result with no error and leaves the store contents
untouched (the in-memory and file variants cannot fail at all on an empty
batch, and the relational variant sends an empty pipeline and reads back an
empty result list). -/
theorem claim10_saveBatch_empty :
    (∀ (uid b : String) (s : MemState),
        MemoryStorage.saveBatch uid [] b s = ([], s)) ∧
    (∀ (e : List String) (uid b : String) (t : Table),
        RDB.saveBatch e uid [] b t = (RDB.BatchOutcome.ok [], t)) ∧
    (∀ (uid b : String) (st : FileState),
        fileSaveBatch uid [] b st = ([], st)) := by
  refine ⟨fun _ _ _ => rfl, fun e uid b t => ?_, fun _ _ _ => rfl⟩
  cases e with
  | nil => rfl
  | cons c cs => rfl

end Shortener
